import Mathlib

/-!
Verification of the request-metrics instrumentation of the `ci-cd-pipeline`
application (`src/app/app.js`): the middleware that, on every finished HTTP
response, observes the request duration into a histogram and increments the
total-request and server-error counters, keyed by method, route and status
code, together with the `/metrics` export endpoint.

The application logic in `app.js` is embedded directly.  The metric storage
and serialization live in the `prom-client` library, which is not part of the
repository's sources; those parts are modelled from the design document
(data model §3, collector contract §4.1, exposition format §6), as flagged on
each such definition.
-/

namespace CICD

/-- Label combination used by all three custom metrics
(`app.js` lines 20, 28, 35: `labelNames: ['method', 'route', 'status_code']`). -/
structure Labels where
  method : String
  route : String
  status_code : String
deriving DecidableEq

/-- One completed HTTP request as the middleware sees it (`app.js` lines 40-59):
the method, the route pattern matched by the router (`req.route`, absent when
no route matched, e.g. a 404), the raw request path (`req.path`), the final
status code, and the measured duration in seconds. -/
structure Request where
  method : String
  routeMatched : Option String
  path : String
  statusCode : Nat
  duration : ℚ
deriving DecidableEq

/-- Route label resolution (`app.js` line 45):
`const route = req.route ? req.route.path : req.path`. -/
def routeOf (r : Request) : String :=
  match r.routeMatched with
  | some p => p
  | none => r.path

/-- The label combination a finished request is recorded under
(`app.js` lines 45-46 and the label objects at lines 49, 53, 57);
`statusCode` is stringified as at line 46. -/
def labelsOf (r : Request) : Labels :=
  ⟨r.method, routeOf r, toString r.statusCode⟩

/-- Modelled from the spec: per-series storage of the `prom-client` library
(not part of `src/`) is a table from label combination to its data, entries
"created lazily on first observation" (spec §3).  `incEntry` increments a
counter entry by one, creating the entry at 1 when absent. -/
def incEntry : List (Labels × Nat) → Labels → List (Labels × Nat)
  | [], l => [(l, 1)]
  | (k, v) :: rest, l =>
      if k = l then (k, v + 1) :: rest else (k, v) :: incEntry rest l

/-- Modelled from the spec: a histogram entry records the observed durations
for one label combination (spec §4.1: an observation feeds bucket counts,
total count and running sum, all derived from the observed values below).
`obsEntry` prepends an observation, creating the entry when absent. -/
def obsEntry : List (Labels × List ℚ) → Labels → ℚ → List (Labels × List ℚ)
  | [], l, d => [(l, [d])]
  | (k, v) :: rest, l, d =>
      if k = l then (k, d :: v) :: rest else (k, v) :: obsEntry rest l d

/-- Current value of a counter at a label combination (0 when no entry). -/
def lookupC : List (Labels × Nat) → Labels → Nat
  | [], _ => 0
  | (k, v) :: rest, l => if k = l then v else lookupC rest l

/-- Observations recorded at a label combination ([] when no entry). -/
def lookupH : List (Labels × List ℚ) → Labels → List ℚ
  | [], _ => []
  | (k, v) :: rest, l => if k = l then v else lookupH rest l

/-- The label combinations that have an entry. -/
def keysOf {α : Type} (m : List (Labels × α)) : List Labels := m.map Prod.fst

/-- Registered histogram bucket upper bounds (`app.js` line 21:
`buckets: [0.1, 0.3, 0.5, 0.7, 1, 3, 5, 7, 10]`). -/
def buckets : List ℚ := [1/10, 3/10, 1/2, 7/10, 1, 3, 5, 7, 10]

/-- Cumulative bucket count at upper bound `ub`: the number of recorded
observations `≤ ub` (spec §4.1: observation increments "the cumulative count
of every bucket whose upper bound ≥ duration"). -/
def bucketCount (obs : List ℚ) (ub : ℚ) : Nat :=
  obs.countP (fun d => decide (d ≤ ub))

/-- The registry state: one entry table per registered series
(`app.js` lines 17-37: the duration histogram and the two counters). -/
structure MetricsState where
  durationEntries : List (Labels × List ℚ)
  requestEntries : List (Labels × Nat)
  errorEntries : List (Labels × Nat)
deriving DecidableEq

/-- State right after registration: series registered, no label-combination
entries yet (spec §3 lifecycle). -/
def initialState : MetricsState := ⟨[], [], []⟩

/-- The `res.on('finish')` callback of the metrics middleware
(`app.js` lines 43-59): observe the duration into the histogram, increment
the total-request counter and, when `statusCode >= 500`, increment the error
counter, all under the request's labels. -/
def onFinish (s : MetricsState) (r : Request) : MetricsState :=
  let labels := labelsOf r
  let s1 : MetricsState :=
    { s with durationEntries := obsEntry s.durationEntries labels r.duration }
  let s2 : MetricsState :=
    { s1 with requestEntries := incEntry s1.requestEntries labels }
  if 500 ≤ r.statusCode then
    { s2 with errorEntries := incEntry s2.errorEntries labels }
  else s2

/-- Process a sequence of completed requests in order. -/
def run (s : MetricsState) (reqs : List Request) : MetricsState :=
  reqs.foldl onFinish s

/-! ### Exposition-format rendering (`register.metrics()`)

The serializer lives in the `prom-client` library, outside `src/`; it is
modelled from the spec (§6): "for each series, a type line and one data line
per label combination: `metric_name\x7blabel="value",...\x7d numeric_value`;
histograms emit one line per bucket upper bound suffixed
`_bucket\x7ble="<bound>",...\x7d`, plus `_sum` and `_count` lines", with the
environment-sourced default-metric lines merged into the same snapshot
(spec §4.1). -/

/-- Decimal digit string of a natural number, most significant digit first. -/
def natRepr (n : Nat) : String :=
  if n = 0 then "0" else ((Nat.digits 10 n).reverse.map Nat.digitChar).asString

/-- Rendering of an integer sample value. -/
def intRepr (i : Int) : String :=
  if i < 0 then "-" ++ natRepr i.natAbs else natRepr i.natAbs

/-- Exact rendering of a rational sample value as `numerator/denominator`. -/
def ratRepr (q : ℚ) : String := intRepr q.num ++ "/" ++ natRepr q.den

/-- The `\x7bmethod="...",route="...",status_code="..."\x7d` label block. -/
def labelStr (l : Labels) : String :=
  "\x7bmethod=\"" ++ l.method ++ "\",route=\"" ++ l.route
    ++ "\",status_code=\"" ++ l.status_code ++ "\"\x7d"

/-- One counter data line: `name\x7blabels\x7d value`. -/
def counterLine (name : String) (l : Labels) (v : Nat) : String :=
  name ++ labelStr l ++ " " ++ natRepr v

/-- Label block of a bucket line, with the `le` bound label first. -/
def bucketLabelStr (l : Labels) (ub : ℚ) : String :=
  "\x7ble=\"" ++ ratRepr ub ++ "\",method=\"" ++ l.method ++ "\",route=\""
    ++ l.route ++ "\",status_code=\"" ++ l.status_code ++ "\"\x7d"

/-- One cumulative bucket line of the duration histogram. -/
def bucketLine (l : Labels) (ub : ℚ) (c : Nat) : String :=
  "http_request_duration_seconds_bucket" ++ bucketLabelStr l ub ++ " " ++ natRepr c

/-- The `_sum` line of one histogram entry. -/
def sumLine (l : Labels) (obs : List ℚ) : String :=
  "http_request_duration_seconds_sum" ++ labelStr l ++ " " ++ ratRepr obs.sum

/-- The `_count` line of one histogram entry. -/
def countLine (l : Labels) (obs : List ℚ) : String :=
  "http_request_duration_seconds_count" ++ labelStr l ++ " " ++ natRepr obs.length

/-- The lines of one histogram label-combination entry: one line per
registered bucket bound, then `_sum` and `_count`. -/
def renderHistEntry (e : Labels × List ℚ) : List String :=
  buckets.map (fun b => bucketLine e.1 b (bucketCount e.2 b))
    ++ [sumLine e.1 e.2, countLine e.1 e.2]

/-- The data lines of the duration histogram, one block per entry. -/
def histSection : List (Labels × List ℚ) → List String
  | [] => []
  | e :: rest => renderHistEntry e ++ histSection rest

/-- The data lines of a counter, one per entry. -/
def counterSection (name : String) : List (Labels × Nat) → List String
  | [] => []
  | e :: rest => counterLine name e.1 e.2 :: counterSection name rest

/-- The type line of a series. -/
def typeLine (name kind : String) : String := "# TYPE " ++ name ++ " " ++ kind

/-- The exposition lines of the three registered custom series, in
registration order (`app.js` lines 23, 30, 37). -/
def renderLines (s : MetricsState) : List String :=
  (typeLine "http_request_duration_seconds" "histogram"
      :: histSection s.durationEntries)
    ++ (typeLine "http_requests_total" "counter"
      :: counterSection "http_requests_total" s.requestEntries)
    ++ (typeLine "http_errors_total" "counter"
      :: counterSection "http_errors_total" s.errorEntries)

/-- Join exposition lines, terminating each with a newline. -/
def unlines : List String → String
  | [] => ""
  | l :: ls => l ++ "\n" ++ unlines ls

/-- The full snapshot text: the environment-sourced default-metric lines
(registered at `app.js` line 14 by `collectDefaultMetrics`, values read from
the process environment at scrape time) followed by the three custom
series. -/
def renderFull (envLines : List String) (s : MetricsState) : String :=
  unlines (envLines ++ renderLines s)

/-! ### The GET /metrics handler -/

/-- Observable outcome of one `/metrics` request: status, content-type
header, body, and the console lines the handler logs. -/
structure MetricsResponse where
  status : Nat
  contentType : Option String
  body : String
  logs : List String
deriving DecidableEq

/-- Content-type constant supplied by the registry (`register.contentType`). -/
def metricsContentType : String := "text/plain; version=0.0.4; charset=utf-8"

/-- The `GET /metrics` handler (`app.js` lines 83-90): set the content type,
then send the serialized snapshot; when serialization faults, catch the error
and reply 500 with the raw error content as the body.  The serialization
outcome is the `Except` argument; the content type is set before the awaited
serialization, so it is present in both branches, and the handler contains no
logging call, so `logs = []` in both branches. -/
def metricsHandler (result : Except String String) : MetricsResponse :=
  match result with
  | Except.ok text =>
      { status := 200, contentType := some metricsContentType,
        body := text, logs := [] }
  | Except.error e =>
      { status := 500, contentType := some metricsContentType,
        body := e, logs := [] }

/-! ### Scraping -/

/-- A completed `GET /metrics` request: Express matched the `/metrics` route
pattern, the export replied 200, and the middleware measured duration `d`. -/
def scrapeReq (d : ℚ) : Request :=
  { method := "GET", routeMatched := some "/metrics", path := "/metrics",
    statusCode := 200, duration := d }

/-- One scrape: the snapshot is rendered from the pre-state, and the
response's `finish` event then records the scrape itself through the
middleware (`app.js` lines 40-62 wrap every route, `/metrics` included). -/
def scrape (envLines : List String) (s : MetricsState) (d : ℚ) :
    String × MetricsState :=
  (renderFull envLines s, onFinish s (scrapeReq d))

/-! ### Newline-free strings -/

/-- A string with no newline, i.e. one that stays on one exposition line. -/
def cleanStr (x : String) : Prop := '\n' ∉ x.data

instance (x : String) : Decidable (cleanStr x) :=
  inferInstanceAs (Decidable ('\n' ∉ x.data))

/-- Newline-free label values (HTTP methods and paths contain no newline). -/
def cleanLabels (l : Labels) : Prop :=
  cleanStr l.method ∧ cleanStr l.route ∧ cleanStr l.status_code

instance (l : Labels) : Decidable (cleanLabels l) :=
  inferInstanceAs (Decidable (_ ∧ _ ∧ _))

/-- All label combinations recorded in the state are newline-free. -/
def cleanState (s : MetricsState) : Prop :=
  (∀ e ∈ s.durationEntries, cleanLabels e.1)
    ∧ (∀ e ∈ s.requestEntries, cleanLabels e.1)
    ∧ (∀ e ∈ s.errorEntries, cleanLabels e.1)

instance (s : MetricsState) : Decidable (cleanState s) :=
  inferInstanceAs (Decidable (_ ∧ _ ∧ _))

/-- `Date.now()` (`app.js` lines 41, 44) returns a whole number of
milliseconds: the real clock, modelled here in microseconds, is truncated to
the millisecond. -/
def dateNowMs (tMicros : Nat) : Nat := tMicros / 1000

/-- `app.js` line 44: `const duration = (Date.now() - start) / 1000`,
i.e. the difference of two millisecond timestamps, in seconds. -/
def durationSeconds (startMs nowMs : Nat) : ℚ :=
  ((nowMs : ℚ) - (startMs : ℚ)) / 1000

/-! ### Basic lemmas about the entry tables -/

theorem lookupC_incEntry (m : List (Labels × Nat)) (l l' : Labels) :
    lookupC (incEntry m l) l' = lookupC m l' + if l = l' then 1 else 0 := by
  induction m with
  | nil =>
      by_cases h : l = l' <;> simp [incEntry, lookupC, h]
  | cons e rest ih =>
      obtain ⟨k, v⟩ := e
      by_cases hk : k = l
      · subst hk
        by_cases h' : k = l' <;> simp [incEntry, lookupC, h']
      · by_cases h' : k = l'
        · subst h'
          have hlk : ¬l = k := fun e => hk e.symm
          simp [incEntry, lookupC, hk, hlk]
        · simp [incEntry, lookupC, hk, h', ih]

theorem lookupH_obsEntry (m : List (Labels × List ℚ)) (l l' : Labels) (d : ℚ) :
    lookupH (obsEntry m l d) l'
      = if l = l' then d :: lookupH m l' else lookupH m l' := by
  induction m with
  | nil =>
      by_cases h : l = l' <;> simp [obsEntry, lookupH, h]
  | cons e rest ih =>
      obtain ⟨k, v⟩ := e
      by_cases hk : k = l
      · subst hk
        by_cases h' : k = l' <;> simp [obsEntry, lookupH, h']
      · by_cases h' : k = l'
        · subst h'
          have hlk : ¬l = k := fun e => hk e.symm
          simp [obsEntry, lookupH, hk, hlk]
        · simp [obsEntry, lookupH, hk, h', ih]

theorem mem_keysOf_incEntry (m : List (Labels × Nat)) (l l' : Labels)
    (h : l' ∈ keysOf m) : l' ∈ keysOf (incEntry m l) := by
  induction m with
  | nil => simp [keysOf] at h
  | cons e rest ih =>
      obtain ⟨k, v⟩ := e
      by_cases hk : k = l
      · simpa [incEntry, hk, keysOf] using h
      · rcases (by simpa [keysOf] using h : l' = k ∨ l' ∈ keysOf rest) with h' | h'
        · simp [incEntry, hk, keysOf, h']
        · simpa [incEntry, hk, keysOf] using Or.inr (by simpa [keysOf] using ih h')

theorem mem_keysOf_obsEntry (m : List (Labels × List ℚ)) (l l' : Labels)
    (d : ℚ) (h : l' ∈ keysOf m) : l' ∈ keysOf (obsEntry m l d) := by
  induction m with
  | nil => simp [keysOf] at h
  | cons e rest ih =>
      obtain ⟨k, v⟩ := e
      by_cases hk : k = l
      · simpa [obsEntry, hk, keysOf] using h
      · rcases (by simpa [keysOf] using h : l' = k ∨ l' ∈ keysOf rest) with h' | h'
        · simp [obsEntry, hk, keysOf, h']
        · simpa [obsEntry, hk, keysOf] using Or.inr (by simpa [keysOf] using ih h')

theorem length_incEntry_of_mem (m : List (Labels × Nat)) (l : Labels)
    (h : l ∈ keysOf m) : (incEntry m l).length = m.length := by
  induction m with
  | nil => simp [keysOf] at h
  | cons e rest ih =>
      obtain ⟨k, v⟩ := e
      by_cases hk : k = l
      · simp [incEntry, hk]
      · rcases (by simpa [keysOf] using h : l = k ∨ l ∈ keysOf rest) with h' | h'
        · exact absurd h'.symm hk
        · simp [incEntry, hk, ih h']

theorem length_incEntry_of_not_mem (m : List (Labels × Nat)) (l : Labels)
    (h : l ∉ keysOf m) : (incEntry m l).length = m.length + 1 := by
  induction m with
  | nil => simp [incEntry]
  | cons e rest ih =>
      obtain ⟨k, v⟩ := e
      have hk : ¬(k = l) := fun hkl => h (by simp [keysOf, hkl])
      have hrest : l ∉ keysOf rest := fun hr => h (by simp [keysOf] at hr ⊢; exact Or.inr hr)
      simp [incEntry, hk, ih hrest]

theorem length_obsEntry_of_mem (m : List (Labels × List ℚ)) (l : Labels)
    (d : ℚ) (h : l ∈ keysOf m) : (obsEntry m l d).length = m.length := by
  induction m with
  | nil => simp [keysOf] at h
  | cons e rest ih =>
      obtain ⟨k, v⟩ := e
      by_cases hk : k = l
      · simp [obsEntry, hk]
      · rcases (by simpa [keysOf] using h : l = k ∨ l ∈ keysOf rest) with h' | h'
        · exact absurd h'.symm hk
        · simp [obsEntry, hk, ih h']

theorem length_obsEntry_of_not_mem (m : List (Labels × List ℚ)) (l : Labels)
    (d : ℚ) (h : l ∉ keysOf m) : (obsEntry m l d).length = m.length + 1 := by
  induction m with
  | nil => simp [obsEntry]
  | cons e rest ih =>
      obtain ⟨k, v⟩ := e
      have hk : ¬(k = l) := fun hkl => h (by simp [keysOf, hkl])
      have hrest : l ∉ keysOf rest := fun hr => h (by simp [keysOf] at hr ⊢; exact Or.inr hr)
      simp [obsEntry, hk, ih hrest]

/-! ### The three components of `onFinish` -/

theorem onFinish_durationEntries (s : MetricsState) (r : Request) :
    (onFinish s r).durationEntries
      = obsEntry s.durationEntries (labelsOf r) r.duration := by
  by_cases h : 500 ≤ r.statusCode <;> simp [onFinish, h]

theorem onFinish_requestEntries (s : MetricsState) (r : Request) :
    (onFinish s r).requestEntries
      = incEntry s.requestEntries (labelsOf r) := by
  by_cases h : 500 ≤ r.statusCode <;> simp [onFinish, h]

theorem onFinish_errorEntries (s : MetricsState) (r : Request) :
    (onFinish s r).errorEntries
      = if 500 ≤ r.statusCode then incEntry s.errorEntries (labelsOf r)
        else s.errorEntries := by
  by_cases h : 500 ≤ r.statusCode <;> simp [onFinish, h]

theorem lookupC_run_requestEntries (reqs : List Request) (s : MetricsState)
    (l : Labels) :
    lookupC (run s reqs).requestEntries l
      = lookupC s.requestEntries l
        + reqs.countP (fun r => decide (labelsOf r = l)) := by
  induction reqs generalizing s with
  | nil => simp [run]
  | cons r rest ih =>
      have step : lookupC (onFinish s r).requestEntries l
          = lookupC s.requestEntries l + if labelsOf r = l then 1 else 0 := by
        rw [onFinish_requestEntries, lookupC_incEntry]
      have hrun : run s (r :: rest) = run (onFinish s r) rest := rfl
      rw [hrun, ih, step, List.countP_cons]
      by_cases h : labelsOf r = l
      · simp [h]
        omega
      · simp [h]

/-- The three metric updates a finished request performs, read at label
combination `l`: total-request counter up by one, the duration prepended to
the recorded observations, and the error counter up by one exactly when the
status code is a 5xx. -/
def updatesAt (s : MetricsState) (r : Request) (l : Labels) : Prop :=
  lookupC (onFinish s r).requestEntries l = lookupC s.requestEntries l + 1
    ∧ lookupH (onFinish s r).durationEntries l
      = r.duration :: lookupH s.durationEntries l
    ∧ lookupC (onFinish s r).errorEntries l
      = lookupC s.errorEntries l + (if 500 ≤ r.statusCode then 1 else 0)

theorem updatesAt_labelsOf (s : MetricsState) (r : Request) :
    updatesAt s r (labelsOf r) := by
  refine ⟨?_, ?_, ?_⟩
  · rw [onFinish_requestEntries, lookupC_incEntry, if_pos rfl]
  · rw [onFinish_durationEntries, lookupH_obsEntry, if_pos rfl]
  · rw [onFinish_errorEntries]
    by_cases h : 500 ≤ r.statusCode
    · rw [if_pos h, if_pos h, lookupC_incEntry, if_pos rfl]
    · simp [h]

/-! ### Claims C1-C4, C7, C8 -/

/-- C1: starting from the freshly registered state, after any sequence of
completed requests that all carry method/route/status label combination `l`,
the `http_requests_total` counter at `l` equals exactly the number of
requests in the sequence. -/
theorem c1_requests_total_counts (reqs : List Request) (l : Labels)
    (h : ∀ r ∈ reqs, labelsOf r = l) :
    lookupC (run initialState reqs).requestEntries l = reqs.length := by
  rw [lookupC_run_requestEntries]
  have h0 : lookupC initialState.requestEntries l = 0 := rfl
  rw [h0, Nat.zero_add]
  exact List.countP_eq_length.mpr (fun r hr => by simp [h r hr])

theorem c1_witness :
    lookupC (run initialState
        [⟨"GET", some "/api/status", "/api/status", 200, 1/100⟩,
         ⟨"GET", some "/api/status", "/api/status", 200, 2/100⟩,
         ⟨"GET", some "/api/status", "/api/status", 200, 3/100⟩]).requestEntries
      ⟨"GET", "/api/status", "200"⟩ = 3 :=
  c1_requests_total_counts _ _ (by decide)

/-- C2: a finished request changes the `http_errors_total` counter at a label
combination `l` by exactly one when the final status code is ≥ 500 and `l` is
the request's label combination, and leaves it unchanged otherwise — in
particular a request with status < 500 never increments it anywhere. -/
theorem c2_error_counter_iff_5xx (s : MetricsState) (r : Request) (l : Labels) :
    lookupC (onFinish s r).errorEntries l
      = lookupC s.errorEntries l
        + if 500 ≤ r.statusCode ∧ labelsOf r = l then 1 else 0 := by
  rw [onFinish_errorEntries]
  by_cases h : 500 ≤ r.statusCode
  · rw [if_pos h, lookupC_incEntry]
    by_cases hl : labelsOf r = l <;> simp [h, hl]
  · rw [if_neg h]
    simp [h]

/-- C3: a finished request observes its duration into the histogram entry of
its label combination: every cumulative bucket count whose upper bound is at
least the duration goes up by one (others are unchanged), the total
observation count goes up by one, and the duration is added to the running
sum. -/
theorem c3_histogram_observe (s : MetricsState) (r : Request) (ub : ℚ) :
    bucketCount (lookupH (onFinish s r).durationEntries (labelsOf r)) ub
        = bucketCount (lookupH s.durationEntries (labelsOf r)) ub
          + (if r.duration ≤ ub then 1 else 0)
      ∧ (lookupH (onFinish s r).durationEntries (labelsOf r)).length
        = (lookupH s.durationEntries (labelsOf r)).length + 1
      ∧ (lookupH (onFinish s r).durationEntries (labelsOf r)).sum
        = (lookupH s.durationEntries (labelsOf r)).sum + r.duration := by
  rw [onFinish_durationEntries, lookupH_obsEntry, if_pos rfl]
  refine ⟨?_, by simp, by simp [add_comm]⟩
  rw [bucketCount, bucketCount, List.countP_cons]
  by_cases hd : r.duration ≤ ub <;> simp [hd]

/-- C4: for any metrics state and label combination, the cumulative bucket
counts of the duration histogram are monotonically non-decreasing in the
bucket upper bound, and the total observation count (the `_count` line)
bounds every bucket count from above. -/
theorem c4_bucket_counts_monotone (s : MetricsState) (l : Labels)
    (ub₁ ub₂ : ℚ) (h : ub₁ ≤ ub₂) :
    bucketCount (lookupH s.durationEntries l) ub₁
        ≤ bucketCount (lookupH s.durationEntries l) ub₂
      ∧ bucketCount (lookupH s.durationEntries l) ub₂
        ≤ (lookupH s.durationEntries l).length := by
  constructor
  · exact List.countP_mono_left (fun d _ hd => by
      simp only [decide_eq_true_eq] at hd ⊢
      exact hd.trans h)
  · exact List.countP_le_length _

theorem c4_witness :
    bucketCount (lookupH (MetricsState.mk
          [(⟨"GET", "/", "200"⟩, [1/2, 2])] [] []).durationEntries
        ⟨"GET", "/", "200"⟩) (1/10)
      ≤ bucketCount (lookupH (MetricsState.mk
          [(⟨"GET", "/", "200"⟩, [1/2, 2])] [] []).durationEntries
        ⟨"GET", "/", "200"⟩) 1
    ∧ bucketCount (lookupH (MetricsState.mk
          [(⟨"GET", "/", "200"⟩, [1/2, 2])] [] []).durationEntries
        ⟨"GET", "/", "200"⟩) 1
      ≤ (lookupH (MetricsState.mk
          [(⟨"GET", "/", "200"⟩, [1/2, 2])] [] []).durationEntries
        ⟨"GET", "/", "200"⟩).length :=
  c4_bucket_counts_monotone _ _ _ _ (by norm_num)

/-- C7 as stated fails on the code: `Date.now()` ticks in whole milliseconds,
so a request that really lasted half a millisecond (arrival at 0 µs, finish
at 500 µs) records duration 0, not the true 500/1000000 s — sub-millisecond
resolution is not preserved. -/
theorem c7_counterexample :
    durationSeconds (dateNowMs 0) (dateNowMs 500) = 0
      ∧ ((500 : ℚ) / 1000000 ≠ 0) := by
  constructor
  · norm_num [durationSeconds, dateNowMs]
  · norm_num

/-- C7 (amended): the recorded duration is Date.now() at finish minus
Date.now() at arrival, divided by 1000 — a value in seconds that is always a
whole number of milliseconds; finish instants falling in the same millisecond
record identical durations (millisecond, not sub-millisecond, resolution). -/
theorem c7_duration_millisecond_resolution (t₀ t₁ t₁' : Nat)
    (h : t₁ / 1000 = t₁' / 1000) :
    durationSeconds (dateNowMs t₀) (dateNowMs t₁)
        = durationSeconds (dateNowMs t₀) (dateNowMs t₁')
      ∧ ∃ k : ℤ, durationSeconds (dateNowMs t₀) (dateNowMs t₁)
        = (k : ℚ) / 1000 := by
  constructor
  · unfold dateNowMs
    rw [h]
  · refine ⟨(dateNowMs t₁ : ℤ) - (dateNowMs t₀ : ℤ), ?_⟩
    unfold durationSeconds
    push_cast
    ring

theorem c7_witness :
    durationSeconds (dateNowMs 0) (dateNowMs 1500)
        = durationSeconds (dateNowMs 0) (dateNowMs 1999)
      ∧ ∃ k : ℤ, durationSeconds (dateNowMs 0) (dateNowMs 1500)
        = (k : ℚ) / 1000 :=
  c7_duration_millisecond_resolution 0 1500 1999 (by norm_num)

/-- C8: the route label under which a finished request updates all three
metrics is the router's matched path pattern when one matched, and the raw
request path when none did (e.g. a 404). -/
theorem c8_route_label (s : MetricsState) (r : Request) :
    (∀ p, r.routeMatched = some p →
        updatesAt s r ⟨r.method, p, toString r.statusCode⟩)
      ∧ (r.routeMatched = none →
        updatesAt s r ⟨r.method, r.path, toString r.statusCode⟩) := by
  constructor
  · intro p hp
    have hl : labelsOf r = ⟨r.method, p, toString r.statusCode⟩ := by
      simp [labelsOf, routeOf, hp]
    exact hl ▸ updatesAt_labelsOf s r
  · intro hp
    have hl : labelsOf r = ⟨r.method, r.path, toString r.statusCode⟩ := by
      simp [labelsOf, routeOf, hp]
    exact hl ▸ updatesAt_labelsOf s r

theorem c8_witness :
    updatesAt initialState ⟨"GET", some "/api/status", "/api/status", 200, 0⟩
        ⟨"GET", "/api/status", toString 200⟩
      ∧ updatesAt initialState ⟨"GET", none, "/unknown", 404, 0⟩
        ⟨"GET", "/unknown", toString 404⟩ :=
  ⟨(c8_route_label initialState _).1 "/api/status" rfl,
   (c8_route_label initialState _).2 rfl⟩

/-! ### Claim C9: monotone, append-only state -/

theorem onFinish_mem_keys_requests (s : MetricsState) (r : Request)
    (l : Labels) (h : l ∈ keysOf s.requestEntries) :
    l ∈ keysOf (onFinish s r).requestEntries := by
  rw [onFinish_requestEntries]
  exact mem_keysOf_incEntry _ _ _ h

theorem onFinish_mem_keys_errors (s : MetricsState) (r : Request)
    (l : Labels) (h : l ∈ keysOf s.errorEntries) :
    l ∈ keysOf (onFinish s r).errorEntries := by
  rw [onFinish_errorEntries]
  by_cases h5 : 500 ≤ r.statusCode
  · rw [if_pos h5]
    exact mem_keysOf_incEntry _ _ _ h
  · rwa [if_neg h5]

theorem onFinish_mem_keys_durations (s : MetricsState) (r : Request)
    (l : Labels) (h : l ∈ keysOf s.durationEntries) :
    l ∈ keysOf (onFinish s r).durationEntries := by
  rw [onFinish_durationEntries]
  exact mem_keysOf_obsEntry _ _ _ _ h

theorem onFinish_requests_le (s : MetricsState) (r : Request) (l : Labels) :
    lookupC s.requestEntries l ≤ lookupC (onFinish s r).requestEntries l := by
  rw [onFinish_requestEntries, lookupC_incEntry]
  exact Nat.le_add_right _ _

theorem onFinish_errors_le (s : MetricsState) (r : Request) (l : Labels) :
    lookupC s.errorEntries l ≤ lookupC (onFinish s r).errorEntries l := by
  rw [onFinish_errorEntries]
  by_cases h5 : 500 ≤ r.statusCode
  · rw [if_pos h5, lookupC_incEntry]
    exact Nat.le_add_right _ _
  · rw [if_neg h5]

theorem onFinish_bucketCount_le (s : MetricsState) (r : Request)
    (l : Labels) (ub : ℚ) :
    bucketCount (lookupH s.durationEntries l) ub
      ≤ bucketCount (lookupH (onFinish s r).durationEntries l) ub := by
  rw [onFinish_durationEntries, lookupH_obsEntry]
  by_cases hl : labelsOf r = l
  · rw [if_pos hl, bucketCount, bucketCount, List.countP_cons]
    exact Nat.le_add_right _ _
  · rw [if_neg hl]

/-- C9: over any sequence of completed requests, the metric state only grows:
label combinations once present are never removed from any of the three
series, both counters and every cumulative bucket count never decrease, and
every histogram entry is rendered against the same fixed registered bucket
bounds; no exposed operation resets a metric (`run` folds the only state
mutation, and export is a pure function of the state). -/
theorem c9_monotone_append_only (s : MetricsState) (reqs : List Request)
    (l : Labels) (ub : ℚ) :
    (l ∈ keysOf s.requestEntries → l ∈ keysOf (run s reqs).requestEntries)
      ∧ (l ∈ keysOf s.errorEntries → l ∈ keysOf (run s reqs).errorEntries)
      ∧ (l ∈ keysOf s.durationEntries → l ∈ keysOf (run s reqs).durationEntries)
      ∧ lookupC s.requestEntries l ≤ lookupC (run s reqs).requestEntries l
      ∧ lookupC s.errorEntries l ≤ lookupC (run s reqs).errorEntries l
      ∧ bucketCount (lookupH s.durationEntries l) ub
        ≤ bucketCount (lookupH (run s reqs).durationEntries l) ub
      ∧ ∀ e ∈ (run s reqs).durationEntries,
          renderHistEntry e
            = buckets.map (fun b => bucketLine e.1 b (bucketCount e.2 b))
              ++ [sumLine e.1 e.2, countLine e.1 e.2] := by
  induction reqs generalizing s with
  | nil =>
      exact ⟨id, id, id, Nat.le_refl _, Nat.le_refl _, Nat.le_refl _,
        fun e _ => rfl⟩
  | cons r rest ih =>
      have hrun : run s (r :: rest) = run (onFinish s r) rest := rfl
      rw [hrun]
      obtain ⟨k1, k2, k3, m1, m2, m3, hb⟩ := ih (onFinish s r)
      exact ⟨fun h => k1 (onFinish_mem_keys_requests s r l h),
        fun h => k2 (onFinish_mem_keys_errors s r l h),
        fun h => k3 (onFinish_mem_keys_durations s r l h),
        (onFinish_requests_le s r l).trans m1,
        (onFinish_errors_le s r l).trans m2,
        (onFinish_bucketCount_le s r l ub).trans m3,
        hb⟩

theorem c9_witness :
    (Labels.mk "GET" "/" "200" ∈ keysOf (run
        (MetricsState.mk [(⟨"GET", "/", "200"⟩, [1/2])]
          [(⟨"GET", "/", "200"⟩, 1)] [(⟨"GET", "/", "200"⟩, 1)])
        [⟨"GET", some "/", "/", 500, 1⟩]).requestEntries)
      ∧ (Labels.mk "GET" "/" "200" ∈ keysOf (run
        (MetricsState.mk [(⟨"GET", "/", "200"⟩, [1/2])]
          [(⟨"GET", "/", "200"⟩, 1)] [(⟨"GET", "/", "200"⟩, 1)])
        [⟨"GET", some "/", "/", 500, 1⟩]).errorEntries)
      ∧ (Labels.mk "GET" "/" "200" ∈ keysOf (run
        (MetricsState.mk [(⟨"GET", "/", "200"⟩, [1/2])]
          [(⟨"GET", "/", "200"⟩, 1)] [(⟨"GET", "/", "200"⟩, 1)])
        [⟨"GET", some "/", "/", 500, 1⟩]).durationEntries)
      ∧ lookupC (MetricsState.mk [(⟨"GET", "/", "200"⟩, [1/2])]
          [(⟨"GET", "/", "200"⟩, 1)] [(⟨"GET", "/", "200"⟩, 1)]).requestEntries
          ⟨"GET", "/", "200"⟩
        ≤ lookupC (run
          (MetricsState.mk [(⟨"GET", "/", "200"⟩, [1/2])]
            [(⟨"GET", "/", "200"⟩, 1)] [(⟨"GET", "/", "200"⟩, 1)])
          [⟨"GET", some "/", "/", 500, 1⟩]).requestEntries
          ⟨"GET", "/", "200"⟩ := by
  have h := c9_monotone_append_only
    (MetricsState.mk [(⟨"GET", "/", "200"⟩, [1/2])]
      [(⟨"GET", "/", "200"⟩, 1)] [(⟨"GET", "/", "200"⟩, 1)])
    [⟨"GET", some "/", "/", 500, 1⟩] ⟨"GET", "/", "200"⟩ 1
  exact ⟨h.1 (by decide), h.2.1 (by decide), h.2.2.1 (by decide),
    h.2.2.2.1⟩

/-! ### Claims C5 and C6: the export endpoint -/

/-- C5 as stated fails on the code: the catch block of the `/metrics` handler
(`app.js` lines 87-89) surfaces the fault as a 500 with the raw error as
body, but contains no logging call — on a concrete serialization fault the
handler emits no log line. -/
theorem c5_counterexample :
    (metricsHandler (Except.error "serialization fault")).logs = [] := rfl

/-- C5 (amended): the export never fails due to the metrics state — the
snapshot is a total function of the state, and on a successful serialization
the handler replies 200 with the metrics content type and the full snapshot
as body; a serialization-layer fault is caught and surfaced as a 500 whose
body is the raw error content, but without any log being emitted. -/
theorem c5_metrics_handler (envLines : List String) (s : MetricsState)
    (e : String) :
    metricsHandler (Except.ok (renderFull envLines s))
        = ⟨200, some metricsContentType, renderFull envLines s, []⟩
      ∧ metricsHandler (Except.error e)
        = ⟨500, some metricsContentType, e, []⟩ :=
  ⟨rfl, rfl⟩

theorem mem_counterSection (name : String) (m : List (Labels × Nat)) :
    ∀ e ∈ m, counterLine name e.1 e.2 ∈ counterSection name m := by
  induction m with
  | nil =>
      intro e he
      simp at he
  | cons x rest ih =>
      intro e he
      rcases List.mem_cons.mp he with h | h
      · subst h
        simp [counterSection]
      · simp [counterSection, ih e h]

theorem mem_histSection (m : List (Labels × List ℚ)) :
    ∀ e ∈ m, ∀ line ∈ renderHistEntry e, line ∈ histSection m := by
  induction m with
  | nil =>
      intro e he
      simp at he
  | cons x rest ih =>
      intro e he line hl
      rcases List.mem_cons.mp he with h | h
      · subst h
        exact List.mem_append.mpr (Or.inl hl)
      · exact List.mem_append.mpr (Or.inr (ih e h line hl))

/-- C6 as stated fails on the code: the snapshot merges the
environment-sourced default process metrics (`app.js` line 14,
`collectDefaultMetrics`), whose values are read from the process at scrape
time — two exports over the identical (here: initial) metrics state differ
when a default-metric reading differs. -/
theorem c6_counterexample :
    ¬(renderFull ["process_cpu_seconds_total 1"] initialState
      = renderFull ["process_cpu_seconds_total 2"] initialState) := by
  decide

/-- C6 (amended): given identical metrics states AND identical
environment-sourced default-metric readings, export is deterministic — the
snapshots are equal — and each snapshot serializes every registered series
(its type line) and every label-combination entry observed so far. -/
theorem c6_export_deterministic_complete (env : List String)
    (s₁ s₂ s : MetricsState)
    (h1 : s₁.durationEntries = s₂.durationEntries)
    (h2 : s₁.requestEntries = s₂.requestEntries)
    (h3 : s₁.errorEntries = s₂.errorEntries) :
    renderFull env s₁ = renderFull env s₂
      ∧ typeLine "http_request_duration_seconds" "histogram" ∈ renderLines s
      ∧ typeLine "http_requests_total" "counter" ∈ renderLines s
      ∧ typeLine "http_errors_total" "counter" ∈ renderLines s
      ∧ (∀ e ∈ s.requestEntries,
          counterLine "http_requests_total" e.1 e.2 ∈ renderLines s)
      ∧ (∀ e ∈ s.errorEntries,
          counterLine "http_errors_total" e.1 e.2 ∈ renderLines s)
      ∧ (∀ e ∈ s.durationEntries, ∀ line ∈ renderHistEntry e,
          line ∈ renderLines s) := by
  refine ⟨?_, ?_, ?_, ?_, ?_, ?_, ?_⟩
  · have hs : s₁ = s₂ := by
      cases s₁
      cases s₂
      simp only at h1 h2 h3
      subst h1
      subst h2
      subst h3
      rfl
    rw [hs]
  · unfold renderLines
    exact List.mem_append.mpr (Or.inl (List.mem_append.mpr
      (Or.inl (List.mem_cons_self _ _))))
  · unfold renderLines
    exact List.mem_append.mpr (Or.inl (List.mem_append.mpr
      (Or.inr (List.mem_cons_self _ _))))
  · unfold renderLines
    exact List.mem_append.mpr (Or.inr (List.mem_cons_self _ _))
  · intro e he
    unfold renderLines
    exact List.mem_append.mpr (Or.inl (List.mem_append.mpr (Or.inr
      (List.mem_cons_of_mem _ (mem_counterSection _ _ e he)))))
  · intro e he
    unfold renderLines
    exact List.mem_append.mpr (Or.inr
      (List.mem_cons_of_mem _ (mem_counterSection _ _ e he)))
  · intro e he line hl
    unfold renderLines
    exact List.mem_append.mpr (Or.inl (List.mem_append.mpr (Or.inl
      (List.mem_cons_of_mem _ (mem_histSection _ e he line hl)))))

theorem c6_witness :
    renderFull [] initialState = renderFull [] initialState
      ∧ counterLine "http_requests_total" ⟨"GET", "/", "200"⟩ 1
        ∈ renderLines (MetricsState.mk [] [(⟨"GET", "/", "200"⟩, 1)] []) := by
  have h := c6_export_deterministic_complete [] initialState initialState
    (MetricsState.mk [] [(⟨"GET", "/", "200"⟩, 1)] []) rfl rfl rfl
  exact ⟨h.1, h.2.2.2.2.1 (⟨"GET", "/", "200"⟩, 1) (by decide)⟩

/-! ### Claim C10: scrapes are themselves instrumented

The snapshot-difference part needs that the rendered text determines the
rendered counter values; the lemmas below establish injectivity of the
decimal rendering and of line joining for newline-free lines. -/

theorem digitChar_inj_lt :
    ∀ a, a < 10 → ∀ b, b < 10 → Nat.digitChar a = Nat.digitChar b → a = b := by
  decide

theorem map_digitChar_inj :
    ∀ l₁ l₂ : List Nat, (∀ x ∈ l₁, x < 10) → (∀ x ∈ l₂, x < 10) →
      l₁.map Nat.digitChar = l₂.map Nat.digitChar → l₁ = l₂ := by
  intro l₁
  induction l₁ with
  | nil =>
      intro l₂ _ _ h
      cases l₂ with
      | nil => rfl
      | cons b bs => simp at h
  | cons a as ih =>
      intro l₂ h₁ h₂ h
      cases l₂ with
      | nil => simp at h
      | cons b bs =>
          simp only [List.map_cons, List.cons.injEq] at h
          have hab : a = b :=
            digitChar_inj_lt a (h₁ a (by simp)) b (h₂ b (by simp)) h.1
          have hrest : as = bs :=
            ih bs (fun x hx => h₁ x (by simp [hx]))
              (fun x hx => h₂ x (by simp [hx])) h.2
          rw [hab, hrest]

theorem digits_eq_zero_list (b : Nat) (h : Nat.digits 10 b = [0]) : b = 0 := by
  have := Nat.ofDigits_digits 10 b
  rw [h] at this
  simpa [Nat.ofDigits] using this.symm

theorem natRepr_inj (a b : Nat) (h : natRepr a = natRepr b) : a = b := by
  have hdata := congrArg String.data h
  by_cases ha : a = 0 <;> by_cases hb : b = 0
  · rw [ha, hb]
  · exfalso
    rw [natRepr, if_pos ha, natRepr, if_neg hb] at hdata
    have hmap : (Nat.digits 10 b).reverse.map Nat.digitChar = ['0'] := hdata.symm
    rcases hrev : (Nat.digits 10 b).reverse with _ | ⟨x, xs⟩
    · rw [hrev] at hmap
      simp at hmap
    · rw [hrev] at hmap
      simp only [List.map_cons, List.cons.injEq] at hmap
      have hxs : xs = [] := List.map_eq_nil_iff.mp hmap.2
      have hx10 : x < 10 := by
        have hxmem : x ∈ Nat.digits 10 b := by
          have : x ∈ (Nat.digits 10 b).reverse := by simp [hrev]
          simpa using this
        exact Nat.digits_lt_base (by norm_num) hxmem
      have hx0 : x = 0 :=
        digitChar_inj_lt x hx10 0 (by norm_num) (by simpa using hmap.1)
      have hdig : Nat.digits 10 b = [0] := by
        have : (Nat.digits 10 b).reverse = [0] := by rw [hrev, hx0, hxs]
        have h2 := congrArg List.reverse this
        simpa using h2
      exact hb (digits_eq_zero_list b hdig)
  · exfalso
    rw [natRepr, if_neg ha, natRepr, if_pos hb] at hdata
    have hmap : (Nat.digits 10 a).reverse.map Nat.digitChar = ['0'] := hdata
    rcases hrev : (Nat.digits 10 a).reverse with _ | ⟨x, xs⟩
    · rw [hrev] at hmap
      simp at hmap
    · rw [hrev] at hmap
      simp only [List.map_cons, List.cons.injEq] at hmap
      have hxs : xs = [] := List.map_eq_nil_iff.mp hmap.2
      have hx10 : x < 10 := by
        have hxmem : x ∈ Nat.digits 10 a := by
          have : x ∈ (Nat.digits 10 a).reverse := by simp [hrev]
          simpa using this
        exact Nat.digits_lt_base (by norm_num) hxmem
      have hx0 : x = 0 :=
        digitChar_inj_lt x hx10 0 (by norm_num) (by simpa using hmap.1)
      have hdig : Nat.digits 10 a = [0] := by
        have : (Nat.digits 10 a).reverse = [0] := by rw [hrev, hx0, hxs]
        have h2 := congrArg List.reverse this
        simpa using h2
      exact ha (digits_eq_zero_list a hdig)
  · rw [natRepr, if_neg ha, natRepr, if_neg hb] at hdata
    have hmap : (Nat.digits 10 a).reverse.map Nat.digitChar
        = (Nat.digits 10 b).reverse.map Nat.digitChar := hdata
    have hrev : (Nat.digits 10 a).reverse = (Nat.digits 10 b).reverse :=
      map_digitChar_inj _ _
        (fun x hx => Nat.digits_lt_base (by norm_num) (by simpa using hx))
        (fun x hx => Nat.digits_lt_base (by norm_num) (by simpa using hx))
        hmap
    have hdig : Nat.digits 10 a = Nat.digits 10 b := by
      have h2 := congrArg List.reverse hrev
      simpa using h2
    have := congrArg (Nat.ofDigits 10) hdig
    rwa [Nat.ofDigits_digits, Nat.ofDigits_digits] at this

theorem cleanStr_append (a b : String) (ha : cleanStr a) (hb : cleanStr b) :
    cleanStr (a ++ b) := by
  intro hmem
  rcases List.mem_append.mp (by simpa [String.data_append] using hmem) with h | h
  · exact ha h
  · exact hb h

theorem natRepr_clean (n : Nat) : cleanStr (natRepr n) := by
  by_cases hn : n = 0
  · rw [natRepr, if_pos hn]
    decide
  · rw [natRepr, if_neg hn]
    intro hmem
    have hmem' : '\n' ∈ (Nat.digits 10 n).reverse.map Nat.digitChar := hmem
    obtain ⟨x, hx, hdc⟩ := List.mem_map.mp hmem'
    have hx10 : x < 10 := Nat.digits_lt_base (by norm_num) (by simpa using hx)
    have : ∀ y, y < 10 → Nat.digitChar y ≠ '\n' := by decide
    exact this x hx10 hdc

theorem intRepr_clean (i : Int) : cleanStr (intRepr i) := by
  by_cases hi : i < 0
  · rw [intRepr, if_pos hi]
    exact cleanStr_append _ _ (by decide) (natRepr_clean _)
  · rw [intRepr, if_neg hi]
    exact natRepr_clean _

theorem ratRepr_clean (q : ℚ) : cleanStr (ratRepr q) :=
  cleanStr_append _ _
    (cleanStr_append _ _ (intRepr_clean _) (by decide)) (natRepr_clean _)

theorem labelStr_clean (l : Labels) (h : cleanLabels l) :
    cleanStr (labelStr l) :=
  cleanStr_append _ _
    (cleanStr_append _ _
      (cleanStr_append _ _
        (cleanStr_append _ _
          (cleanStr_append _ _
            (cleanStr_append _ _ (by decide) h.1)
            (by decide))
          h.2.1)
        (by decide))
      h.2.2)
    (by decide)

theorem counterLine_clean (name : String) (l : Labels) (v : Nat)
    (hn : cleanStr name) (h : cleanLabels l) :
    cleanStr (counterLine name l v) :=
  cleanStr_append _ _
    (cleanStr_append _ _
      (cleanStr_append _ _ hn (labelStr_clean l h))
      (by decide))
    (natRepr_clean _)

theorem bucketLabelStr_clean (l : Labels) (ub : ℚ) (h : cleanLabels l) :
    cleanStr (bucketLabelStr l ub) :=
  cleanStr_append _ _
    (cleanStr_append _ _
      (cleanStr_append _ _
        (cleanStr_append _ _
          (cleanStr_append _ _
            (cleanStr_append _ _
              (cleanStr_append _ _
                (cleanStr_append _ _ (by decide) (ratRepr_clean ub))
                (by decide))
              h.1)
            (by decide))
          h.2.1)
        (by decide))
      h.2.2)
    (by decide)

theorem bucketLine_clean (l : Labels) (ub : ℚ) (c : Nat) (h : cleanLabels l) :
    cleanStr (bucketLine l ub c) :=
  cleanStr_append _ _
    (cleanStr_append _ _
      (cleanStr_append _ _ (by decide) (bucketLabelStr_clean l ub h))
      (by decide))
    (natRepr_clean _)

theorem sumLine_clean (l : Labels) (obs : List ℚ) (h : cleanLabels l) :
    cleanStr (sumLine l obs) :=
  cleanStr_append _ _
    (cleanStr_append _ _
      (cleanStr_append _ _ (by decide) (labelStr_clean l h))
      (by decide))
    (ratRepr_clean _)

theorem countLine_clean (l : Labels) (obs : List ℚ) (h : cleanLabels l) :
    cleanStr (countLine l obs) :=
  cleanStr_append _ _
    (cleanStr_append _ _
      (cleanStr_append _ _ (by decide) (labelStr_clean l h))
      (by decide))
    (natRepr_clean _)

theorem renderHistEntry_clean (e : Labels × List ℚ) (h : cleanLabels e.1) :
    ∀ line ∈ renderHistEntry e, cleanStr line := by
  intro line hline
  rcases List.mem_append.mp hline with hl | hl
  · obtain ⟨b, _, hb⟩ := List.mem_map.mp hl
    exact hb ▸ bucketLine_clean e.1 b _ h
  · rcases List.mem_cons.mp hl with hl' | hl'
    · exact hl' ▸ sumLine_clean e.1 e.2 h
    · rcases List.mem_cons.mp hl' with hl'' | hl''
      · exact hl'' ▸ countLine_clean e.1 e.2 h
      · simp at hl''

theorem histSection_clean (m : List (Labels × List ℚ))
    (h : ∀ e ∈ m, cleanLabels e.1) :
    ∀ line ∈ histSection m, cleanStr line := by
  induction m with
  | nil =>
      intro line hline
      simp [histSection] at hline
  | cons e rest ih =>
      intro line hline
      rcases List.mem_append.mp hline with hl | hl
      · exact renderHistEntry_clean e (h e (by simp)) line hl
      · exact ih (fun x hx => h x (by simp [hx])) line hl

theorem counterSection_clean (name : String) (m : List (Labels × Nat))
    (hn : cleanStr name) (h : ∀ e ∈ m, cleanLabels e.1) :
    ∀ line ∈ counterSection name m, cleanStr line := by
  induction m with
  | nil =>
      intro line hline
      simp [counterSection] at hline
  | cons e rest ih =>
      intro line hline
      rcases List.mem_cons.mp hline with hl | hl
      · exact hl ▸ counterLine_clean name e.1 e.2 hn (h e (by simp))
      · exact ih (fun x hx => h x (by simp [hx])) line hl

theorem renderLines_clean (s : MetricsState) (hs : cleanState s) :
    ∀ line ∈ renderLines s, cleanStr line := by
  intro line hline
  unfold renderLines at hline
  rcases List.mem_append.mp hline with h12 | h3
  · rcases List.mem_append.mp h12 with h1 | h2
    · rcases List.mem_cons.mp h1 with h | h
      · subst h
        decide
      · exact histSection_clean _ hs.1 line h
    · rcases List.mem_cons.mp h2 with h | h
      · subst h
        decide
      · exact counterSection_clean _ _ (by decide) hs.2.1 line h
  · rcases List.mem_cons.mp h3 with h | h
    · subst h
      decide
    · exact counterSection_clean _ _ (by decide) hs.2.2 line h

theorem counterLine_inj_val (name : String) (l : Labels) (v₁ v₂ : Nat)
    (h : counterLine name l v₁ = counterLine name l v₂) : v₁ = v₂ := by
  have hdata := congrArg String.data h
  simp only [counterLine, String.data_append, List.append_assoc] at hdata
  have hrepr : (natRepr v₁).data = (natRepr v₂).data :=
    List.append_cancel_left (List.append_cancel_left
      (List.append_cancel_left hdata))
  exact natRepr_inj v₁ v₂ (String.ext hrepr)

theorem counterSection_incEntry_ne (name : String) (m : List (Labels × Nat))
    (l : Labels) :
    counterSection name (incEntry m l) ≠ counterSection name m := by
  induction m with
  | nil =>
      intro h
      simp [incEntry, counterSection] at h
  | cons e rest ih =>
      obtain ⟨k, v⟩ := e
      by_cases hk : k = l
      · intro h
        simp only [incEntry, if_pos hk, counterSection, List.cons.injEq] at h
        have := counterLine_inj_val name k (v + 1) v h.1
        omega
      · intro h
        simp only [incEntry, if_neg hk, counterSection, List.cons.injEq] at h
        exact ih h.2

theorem renderHistEntry_length (e : Labels × List ℚ) :
    (renderHistEntry e).length = 11 := by
  simp [renderHistEntry, buckets]

theorem histSection_length (m : List (Labels × List ℚ)) :
    (histSection m).length = 11 * m.length := by
  induction m with
  | nil => simp [histSection]
  | cons e rest ih =>
      simp [histSection, renderHistEntry_length, ih]
      ring

theorem counterSection_length (name : String) (m : List (Labels × Nat)) :
    (counterSection name m).length = m.length := by
  induction m with
  | nil => simp [counterSection]
  | cons e rest ih => simp [counterSection, ih]

theorem onFinish_scrape (s : MetricsState) (d : ℚ) :
    onFinish s (scrapeReq d)
      = ⟨obsEntry s.durationEntries ⟨"GET", "/metrics", "200"⟩ d,
         incEntry s.requestEntries ⟨"GET", "/metrics", "200"⟩,
         s.errorEntries⟩ := by
  have ht : (toString (200 : Nat) : String) = "200" := by decide
  simp [onFinish, scrapeReq, labelsOf, routeOf, ht]

theorem renderLines_scrape_ne (s : MetricsState) (d : ℚ) :
    renderLines (onFinish s (scrapeReq d)) ≠ renderLines s := by
  rw [onFinish_scrape]
  intro h
  by_cases hdur : (⟨"GET", "/metrics", "200"⟩ : Labels) ∈ keysOf s.durationEntries
  · by_cases hreq : (⟨"GET", "/metrics", "200"⟩ : Labels) ∈ keysOf s.requestEntries
    · -- all section lengths agree: split the concatenation and contradict
      -- the strict change of the requests section
      unfold renderLines at h
      have hsplit1 := List.append_inj' h (by rfl)
      have hsplit2 := List.append_inj' hsplit1.1
        (by
          simp only [List.length_cons, counterSection_length]
          rw [length_incEntry_of_mem _ _ hreq])
      have htail := hsplit2.2
      simp only [List.cons.injEq] at htail
      exact counterSection_incEntry_ne _ _ _ htail.2
    · -- the requests section grows by one line: total lengths differ
      have hlen := congrArg List.length h
      simp only [renderLines, List.length_append, List.length_cons,
        histSection_length, counterSection_length,
        length_obsEntry_of_mem _ _ d hdur,
        length_incEntry_of_not_mem _ _ hreq] at hlen
      omega
  · -- the histogram section grows by one entry (11 lines): lengths differ
    have hlen := congrArg List.length h
    by_cases hreq : (⟨"GET", "/metrics", "200"⟩ : Labels) ∈ keysOf s.requestEntries
    · simp only [renderLines, List.length_append, List.length_cons,
        histSection_length, counterSection_length,
        length_obsEntry_of_not_mem _ _ d hdur,
        length_incEntry_of_mem _ _ hreq] at hlen
      omega
    · simp only [renderLines, List.length_append, List.length_cons,
        histSection_length, counterSection_length,
        length_obsEntry_of_not_mem _ _ d hdur,
        length_incEntry_of_not_mem _ _ hreq] at hlen
      omega

theorem append_newline_inj :
    ∀ a b ra rb : List Char, '\n' ∉ a → '\n' ∉ b →
      a ++ '\n' :: ra = b ++ '\n' :: rb → a = b ∧ ra = rb := by
  intro a
  induction a with
  | nil =>
      intro b ra rb _ hb h
      cases b with
      | nil => simpa using h
      | cons c cs =>
          simp only [List.nil_append, List.cons_append, List.cons.injEq] at h
          exact absurd (h.1 ▸ List.mem_cons_self c cs) hb
  | cons x xs ih =>
      intro b ra rb ha hb h
      cases b with
      | nil =>
          simp only [List.cons_append, List.nil_append, List.cons.injEq] at h
          exact absurd (h.1 ▸ List.mem_cons_self x xs) ha
      | cons y ys =>
          simp only [List.cons_append, List.cons.injEq] at h
          obtain ⟨hxy, h'⟩ := h
          have ha' : '\n' ∉ xs := fun hm => ha (List.mem_cons_of_mem _ hm)
          have hb' : '\n' ∉ ys := fun hm => hb (List.mem_cons_of_mem _ hm)
          obtain ⟨h1, h2⟩ := ih ys ra rb ha' hb' h'
          exact ⟨by rw [hxy, h1], h2⟩

theorem unlines_data_cons (x : String) (xs : List String) :
    (unlines (x :: xs)).data = x.data ++ '\n' :: (unlines xs).data := by
  show (x ++ "\n" ++ unlines xs).data = _
  simp [String.data_append]

theorem unlines_inj :
    ∀ ls₁ ls₂ : List String, (∀ x ∈ ls₁, cleanStr x) →
      (∀ x ∈ ls₂, cleanStr x) → unlines ls₁ = unlines ls₂ → ls₁ = ls₂ := by
  intro ls₁
  induction ls₁ with
  | nil =>
      intro ls₂ _ _ h
      cases ls₂ with
      | nil => rfl
      | cons y ys =>
          exfalso
          have hd := congrArg String.data h
          rw [unlines_data_cons] at hd
          have hlen := congrArg List.length hd
          simp [unlines] at hlen
          omega
  | cons x xs ih =>
      intro ls₂ h₁ h₂ h
      cases ls₂ with
      | nil =>
          exfalso
          have hd := congrArg String.data h
          rw [unlines_data_cons] at hd
          have hlen := congrArg List.length hd
          simp [unlines] at hlen
      | cons y ys =>
          have hd := congrArg String.data h
          rw [unlines_data_cons, unlines_data_cons] at hd
          obtain ⟨hhead, htail⟩ := append_newline_inj _ _ _ _
            (h₁ x (by simp)) (h₂ y (by simp)) hd
          have hx : x = y := String.ext hhead
          have hxs : xs = ys := ih ys (fun z hz => h₁ z (by simp [hz]))
            (fun z hz => h₂ z (by simp [hz])) (String.ext htail)
          rw [hx, hxs]

theorem incEntry_labels_clean (m : List (Labels × Nat)) (l : Labels)
    (hm : ∀ e ∈ m, cleanLabels e.1) (hl : cleanLabels l) :
    ∀ e ∈ incEntry m l, cleanLabels e.1 := by
  induction m with
  | nil =>
      intro e he
      simp [incEntry] at he
      rw [he]
      exact hl
  | cons x rest ih =>
      obtain ⟨k, v⟩ := x
      by_cases hk : k = l
      · intro e he
        simp only [incEntry, if_pos hk] at he
        rcases List.mem_cons.mp he with h | h
        · rw [h]
          exact hm (k, v) (by simp)
        · exact hm e (by simp [h])
      · intro e he
        simp only [incEntry, if_neg hk] at he
        rcases List.mem_cons.mp he with h | h
        · rw [h]
          exact hm (k, v) (by simp)
        · exact ih (fun x hx => hm x (by simp [hx])) e h

theorem obsEntry_labels_clean (m : List (Labels × List ℚ)) (l : Labels)
    (d : ℚ) (hm : ∀ e ∈ m, cleanLabels e.1) (hl : cleanLabels l) :
    ∀ e ∈ obsEntry m l d, cleanLabels e.1 := by
  induction m with
  | nil =>
      intro e he
      simp [obsEntry] at he
      rw [he]
      exact hl
  | cons x rest ih =>
      obtain ⟨k, v⟩ := x
      by_cases hk : k = l
      · intro e he
        simp only [obsEntry, if_pos hk] at he
        rcases List.mem_cons.mp he with h | h
        · rw [h]
          exact hm (k, v) (by simp)
        · exact hm e (by simp [h])
      · intro e he
        simp only [obsEntry, if_neg hk] at he
        rcases List.mem_cons.mp he with h | h
        · rw [h]
          exact hm (k, v) (by simp)
        · exact ih (fun x hx => hm x (by simp [hx])) e h

theorem cleanState_onFinish_scrape (s : MetricsState) (d : ℚ)
    (hs : cleanState s) : cleanState (onFinish s (scrapeReq d)) := by
  rw [onFinish_scrape]
  exact ⟨obsEntry_labels_clean _ _ _ hs.1 (by decide),
    incEntry_labels_clean _ _ hs.2.1 (by decide), hs.2.2⟩

/-- C10: a completed `GET /metrics` scrape is itself instrumented by the
middleware: it increments `http_requests_total` and records its duration in
the histogram under labels `{GET, /metrics, 200}`; consequently export is
not read-only over the metric state, and two consecutive scrapes with no
other traffic (and unchanged environment readings) yield different
snapshots — the second reflects the first scrape's own observation.
The newline-freedom hypotheses hold for any real HTTP traffic (methods and
paths cannot contain newlines). -/
theorem c10_scrape_instrumented (env : List String) (s : MetricsState)
    (d : ℚ) (henv : ∀ x ∈ env, cleanStr x) (hs : cleanState s) :
    lookupC (onFinish s (scrapeReq d)).requestEntries
        ⟨"GET", "/metrics", "200"⟩
      = lookupC s.requestEntries ⟨"GET", "/metrics", "200"⟩ + 1
    ∧ lookupH (onFinish s (scrapeReq d)).durationEntries
        ⟨"GET", "/metrics", "200"⟩
      = d :: lookupH s.durationEntries ⟨"GET", "/metrics", "200"⟩
    ∧ (scrape env (scrape env s d).2 d).1 ≠ (scrape env s d).1 := by
  refine ⟨?_, ?_, ?_⟩
  · rw [onFinish_scrape]
    show lookupC (incEntry s.requestEntries ⟨"GET", "/metrics", "200"⟩) _ = _
    rw [lookupC_incEntry, if_pos rfl]
  · rw [onFinish_scrape]
    show lookupH (obsEntry s.durationEntries ⟨"GET", "/metrics", "200"⟩ d) _ = _
    rw [lookupH_obsEntry, if_pos rfl]
  · show renderFull env (onFinish s (scrapeReq d)) ≠ renderFull env s
    intro h
    have hclean' : ∀ x ∈ env ++ renderLines (onFinish s (scrapeReq d)),
        cleanStr x := by
      intro x hx
      rcases List.mem_append.mp hx with h' | h'
      · exact henv x h'
      · exact renderLines_clean _ (cleanState_onFinish_scrape s d hs) x h'
    have hclean : ∀ x ∈ env ++ renderLines s, cleanStr x := by
      intro x hx
      rcases List.mem_append.mp hx with h' | h'
      · exact henv x h'
      · exact renderLines_clean s hs x h'
    have hlists := unlines_inj _ _ hclean' hclean h
    have := List.append_cancel_left hlists
    exact renderLines_scrape_ne s d this

theorem c10_witness :
    lookupC (onFinish initialState (scrapeReq 0)).requestEntries
        ⟨"GET", "/metrics", "200"⟩
      = lookupC initialState.requestEntries ⟨"GET", "/metrics", "200"⟩ + 1
    ∧ lookupH (onFinish initialState (scrapeReq 0)).durationEntries
        ⟨"GET", "/metrics", "200"⟩
      = 0 :: lookupH initialState.durationEntries ⟨"GET", "/metrics", "200"⟩
    ∧ (scrape [] (scrape [] initialState 0).2 0).1
      ≠ (scrape [] initialState 0).1 :=
  c10_scrape_instrumented [] initialState 0 (by decide) (by decide)

end CICD
